import Mathlib

/-!
Verification of the `github-issue-url` crate (`src/lib.rs`, `src/error.rs`):
a builder for GitHub prefilled-issue URLs.  The builder state, constructor,
setters and `url()` are embedded from the Rust source.  The external `url`
crate (`Url::parse_with_params`) is not part of the repository, so its
behaviour on the inputs this crate produces is modelled from the
specification: form-urlencoded serialization of the query pairs (space
becomes `+`, unsafe bytes are percent-escaped, UTF-8 multi-byte sequences
are escaped byte by byte), appended after `?` to the base URL, which is
returned verbatim, with no `?` when there are no pairs.
-/

/-- UTF-8 encoding of a Unicode scalar value as a list of bytes
(each a `Nat` below 256), standard RFC 3629 layout. -/
def utf8Bytes (c : Char) : List Nat :=
  if c.toNat < 128 then [c.toNat]
  else if c.toNat < 2048 then [192 + c.toNat / 64, 128 + c.toNat % 64]
  else if c.toNat < 65536 then
    [224 + c.toNat / 4096, 128 + c.toNat / 64 % 64, 128 + c.toNat % 64]
  else
    [240 + c.toNat / 262144, 128 + c.toNat / 4096 % 64,
      128 + c.toNat / 64 % 64, 128 + c.toNat % 64]

/-- Uppercase hexadecimal digit for a value below 16. -/
def hexDigitChar (n : Nat) : Char :=
  Char.ofNat (if n < 10 then 48 + n else 55 + n)

/-- Bytes that the `application/x-www-form-urlencoded` serializer passes
through unescaped: ASCII alphanumerics and `*`, `-`, `.`, `_`. -/
def isFormSafe (b : Nat) : Bool :=
  (65 ≤ b && b ≤ 90) || (97 ≤ b && b ≤ 122) || (48 ≤ b && b ≤ 57) ||
    b == 42 || b == 45 || b == 46 || b == 95

/-- Form-urlencoded serialization of one byte: space becomes `+`, safe
bytes stand for themselves, every other byte becomes `%XX` with uppercase
hexadecimal digits. -/
def encodeByteChars (b : Nat) : List Char :=
  if b == 32 then ['+']
  else if isFormSafe b then [Char.ofNat b]
  else ['%', hexDigitChar (b / 16), hexDigitChar (b % 16)]

/-- Form-urlencoded serialization of a string: UTF-8 encode, then escape
byte by byte. -/
def formUrlEncode (s : String) : List Char :=
  (s.data.flatMap utf8Bytes).flatMap encodeByteChars

/-- Join character lists with a separator character between them. -/
def intercalateChar (sep : Char) : List (List Char) → List Char
  | [] => []
  | [x] => x
  | x :: y :: rest => x ++ sep :: intercalateChar sep (y :: rest)

/-- Serialization of a query-pair list in `k1=v1&k2=v2` form, both keys
and values form-urlencoded, in list order. -/
def serializePairsChars (ps : List (String × String)) : List Char :=
  intercalateChar '&' (ps.map fun p => formUrlEncode p.1 ++ '=' :: formUrlEncode p.2)

namespace Url

/-- Modelled from the spec: the external `url` crate's
`Url::parse_with_params` followed by `Url::to_string`, on the base URLs
this crate assembles.  Per the spec, the base URL
`https://github.com/{owner}/{name}/issues/new` parses successfully and is
returned verbatim; the accumulated pairs are appended as a form-urlencoded
query string in insertion order, and no query string segment (no trailing
`?`) is emitted if there are no pairs. -/
def parse_with_params (base : String) (params : List (String × String)) :
    Except String String :=
  .ok (if params.isEmpty then base
       else base ++ "?" ++ String.mk (serializePairsChars params))

end Url

/-- Error enumeration from `src/error.rs`. -/
inductive Error where
  | EmptyRepositoryOwner
  | EmptyRepositoryName
  | UrlParseError (detail : String)
deriving DecidableEq, Repr

/-- User-visible messages from the `thiserror` derive attributes in
`src/error.rs`. -/
def Error.message : Error → String
  | .EmptyRepositoryOwner => "Repository owner name is not defined"
  | .EmptyRepositoryName => "Repository name is not defined"
  | .UrlParseError d => "Failed to parse URL with provided params. " ++ d

/-- Builder state from `src/lib.rs`: repository name, repository owner and
the ordered list of query pairs. -/
structure Issue where
  repository_name : String
  repository_owner : String
  params : List (String × String)
deriving DecidableEq, Repr

/-- Constructor `Issue::new`: rejects an empty repository name (checked
first) and an empty repository owner, otherwise starts with no params. -/
def Issue.new (repository_name repository_owner : String) : Except Error Issue :=
  if repository_name.isEmpty then .error .EmptyRepositoryName
  else if repository_owner.isEmpty then .error .EmptyRepositoryOwner
  else .ok ⟨repository_name, repository_owner, []⟩

/-- Setter `Issue::assignee`: pushes `("assignee", value)`. -/
def Issue.assignee (self : Issue) (assignee : String) : Issue :=
  { self with params := self.params ++ [("assignee", assignee)] }

/-- Setter `Issue::body`: pushes `("body", value)`. -/
def Issue.body (self : Issue) (body : String) : Issue :=
  { self with params := self.params ++ [("body", body)] }

/-- Setter `Issue::labels`: pushes `("labels", value)`. -/
def Issue.labels (self : Issue) (labels : String) : Issue :=
  { self with params := self.params ++ [("labels", labels)] }

/-- Setter `Issue::milestone`: pushes `("milestone", value)`. -/
def Issue.milestone (self : Issue) (milestone : String) : Issue :=
  { self with params := self.params ++ [("milestone", milestone)] }

/-- Setter `Issue::projects`: pushes `("projects", value)`. -/
def Issue.projects (self : Issue) (projects : String) : Issue :=
  { self with params := self.params ++ [("projects", projects)] }

/-- Setter `Issue::title`: pushes `("title", value)`. -/
def Issue.title (self : Issue) (title : String) : Issue :=
  { self with params := self.params ++ [("title", title)] }

/-- Setter `Issue::template`: pushes `("template", value)`. -/
def Issue.template (self : Issue) (template : String) : Issue :=
  { self with params := self.params ++ [("template", template)] }

/-- Method `Issue::url`: assembles
`https://github.com/{owner}/{name}/issues/new`, delegates to
`Url::parse_with_params`, and maps a parser error to `UrlParseError`. -/
def Issue.url (self : Issue) : Except Error String :=
  let repository_url :=
    "https://github.com/" ++ self.repository_owner ++ "/" ++
      self.repository_name ++ "/issues/new"
  match Url.parse_with_params repository_url self.params with
  | .error e => .error (.UrlParseError e)
  | .ok u => .ok u

/-- State-passing view of the Rust call `self.url()` through `&self`: the
method returns its result and leaves the borrowed builder unchanged. -/
def Issue.urlCall (self : Issue) : Except Error String × Issue :=
  (self.url, self)

/-- The seven recognized optional fields. -/
inductive IssueField where
  | assignee | body | labels | milestone | projects | title | template
deriving DecidableEq, Repr

/-- Dispatch one setter call by field, using the embedded setters. -/
def setField (f : IssueField) (v : String) (i : Issue) : Issue :=
  match f with
  | .assignee => i.assignee v
  | .body => i.body v
  | .labels => i.labels v
  | .milestone => i.milestone v
  | .projects => i.projects v
  | .title => i.title v
  | .template => i.template v

/-- Literal query key attached by each field's setter. -/
def IssueField.key : IssueField → String
  | .assignee => "assignee"
  | .body => "body"
  | .labels => "labels"
  | .milestone => "milestone"
  | .projects => "projects"
  | .title => "title"
  | .template => "template"

/-- Apply a sequence of setter calls, in order. -/
def applySetters (i : Issue) (cs : List (IssueField × String)) : Issue :=
  cs.foldl (fun j c => setField c.1 c.2 j) i

/-- The (key, value) pair a setter call accumulates. -/
def callPair (c : IssueField × String) : String × String :=
  (c.1.key, c.2)

example : (Issue.mk "r" "o" []).url = .ok "https://github.com/o/r/issues/new" := by
  rfl

example : ((Issue.mk "r" "o" []).title "a b").url =
    .ok "https://github.com/o/r/issues/new?title=a+b" := by
  rfl

/-- Modelled from the spec: the numeric value of one hexadecimal digit, as
used by a standard percent-decoder (the round-trip side of the spec is not
code of this repository). -/
def hexVal (c : Char) : Option Nat :=
  if 48 ≤ c.toNat ∧ c.toNat ≤ 57 then some (c.toNat - 48)
  else if 65 ≤ c.toNat ∧ c.toNat ≤ 70 then some (c.toNat - 55)
  else if 97 ≤ c.toNat ∧ c.toNat ≤ 102 then some (c.toNat - 87)
  else none

/-- Modelled from the spec: standard percent-decoding of one query
component into bytes, `+` standing for space and `%XX` for the byte `XX`;
other characters stand for their own code point. -/
def percentDecode : List Char → Option (List Nat)
  | [] => some []
  | c :: rest =>
    if c = '+' then (percentDecode rest).map (fun bs => 32 :: bs)
    else if c = '%' then
      match rest with
      | h1 :: h2 :: rest2 =>
        match hexVal h1, hexVal h2 with
        | some a, some d => (percentDecode rest2).map (fun bs => (16 * a + d) :: bs)
        | _, _ => none
      | _ => none
    else (percentDecode rest).map (fun bs => c.toNat :: bs)

/-- Modelled from the spec: standard UTF-8 decoding of one scalar value
from the front of a byte list, returning the scalar and the remaining
bytes. -/
def utf8DecodeOne : List Nat → Option (Nat × List Nat)
  | [] => none
  | b0 :: rest =>
    if b0 < 128 then some (b0, rest)
    else if b0 < 192 then none
    else if b0 < 224 then
      if rest.length < 1 then none
      else
        if 128 ≤ rest.getD 0 0 ∧ rest.getD 0 0 < 192 then
          some ((b0 - 192) * 64 + (rest.getD 0 0 - 128), rest.drop 1)
        else none
    else if b0 < 240 then
      if rest.length < 2 then none
      else
        if (128 ≤ rest.getD 0 0 ∧ rest.getD 0 0 < 192) ∧
            (128 ≤ rest.getD 1 0 ∧ rest.getD 1 0 < 192) then
          some ((b0 - 224) * 4096 + (rest.getD 0 0 - 128) * 64 + (rest.getD 1 0 - 128),
            rest.drop 2)
        else none
    else if b0 < 248 then
      if rest.length < 3 then none
      else
        if (128 ≤ rest.getD 0 0 ∧ rest.getD 0 0 < 192) ∧
            (128 ≤ rest.getD 1 0 ∧ rest.getD 1 0 < 192) ∧
            (128 ≤ rest.getD 2 0 ∧ rest.getD 2 0 < 192) then
          some ((b0 - 240) * 262144 + (rest.getD 0 0 - 128) * 4096 +
            (rest.getD 1 0 - 128) * 64 + (rest.getD 2 0 - 128), rest.drop 3)
        else none
    else none

/-- Modelled from the spec: fuel-bounded loop decoding a whole byte list
into scalar values. -/
def utf8DecodeLoop : Nat → List Nat → Option (List Nat)
  | _, [] => some []
  | 0, _ :: _ => none
  | fuel + 1, l =>
    match utf8DecodeOne l with
    | some (n, rest) => (utf8DecodeLoop fuel rest).map (fun ns => n :: ns)
    | none => none

/-- Modelled from the spec: standard UTF-8 decoding of a byte list into a
list of Unicode scalar values. -/
def utf8Decode (l : List Nat) : Option (List Nat) :=
  utf8DecodeLoop l.length l

/-- Split a character list at every occurrence of the separator. -/
def splitOnChar (sep : Char) : List Char → List (List Char)
  | [] => [[]]
  | c :: rest =>
    match splitOnChar sep rest with
    | [] => [[]]
    | g :: gs => if c = sep then [] :: g :: gs else (c :: g) :: gs

/-- Modelled from the spec: percent-decode one query component and rebuild
the string from the decoded scalar values. -/
def decodeComponent (cs : List Char) : Option String :=
  ((percentDecode cs).bind utf8Decode).map (fun ns => String.mk (ns.map Char.ofNat))

/-- Modelled from the spec: parse one `key=value` component into its
decoded key and value. -/
def parseQueryPair (kv : List Char) : Option (String × String) :=
  match splitOnChar '=' kv with
  | [k, v] =>
    match decodeComponent k, decodeComponent v with
    | some ks, some vs => some (ks, vs)
    | _, _ => none
  | _ => none

/-- Modelled from the spec: parse each `key=value` component, failing if
any component fails. -/
def mapMPairs : List (List Char) → Option (List (String × String))
  | [] => some []
  | kv :: rest =>
    match parseQueryPair kv, mapMPairs rest with
    | some p, some ps => some (p :: ps)
    | _, _ => none

/-- Modelled from the spec: parse a query string back into its decoded
(key, value) pairs, in order. -/
def parseQueryChars (q : List Char) : Option (List (String × String)) :=
  mapMPairs (splitOnChar '&' q)

example : parseQueryChars (serializePairsChars [("title", "a b:,ä€😀"), ("x&=", "y")]) =
    some [("title", "a b:,ä€😀"), ("x&=", "y")] := by
  decide

theorem char_toNat_lt (c : Char) : c.toNat < 1114112 := by
  rcases c.valid with h | ⟨_, h2⟩
  · exact Nat.lt_trans h (by norm_num)
  · exact h2

set_option maxRecDepth 4096 in
theorem toNat_ofNat_of_lt : ∀ b : Nat, b < 256 → (Char.ofNat b).toNat = b := by
  decide

set_option maxRecDepth 4096 in
theorem ofNat_ne_plus : ∀ b : Nat, b < 256 → b ≠ 43 → Char.ofNat b ≠ '+' := by
  decide

set_option maxRecDepth 4096 in
theorem ofNat_ne_percent : ∀ b : Nat, b < 256 → b ≠ 37 → Char.ofNat b ≠ '%' := by
  decide

set_option maxRecDepth 4096 in
theorem isFormSafe_facts : ∀ b : Nat, b < 256 → isFormSafe b = true →
    b ≠ 32 ∧ b ≠ 43 ∧ b ≠ 37 := by
  decide

set_option maxRecDepth 4096 in
theorem hexVal_hexDigitChar : ∀ n : Nat, n < 16 → hexVal (hexDigitChar n) = some n := by
  decide

theorem percentDecode_plus (rest : List Char) :
    percentDecode ('+' :: rest) = (percentDecode rest).map (fun bs => 32 :: bs) := by
  rw [percentDecode.eq_def]
  simp

theorem percentDecode_other (c : Char) (rest : List Char) (h1 : c ≠ '+') (h2 : c ≠ '%')
    : percentDecode (c :: rest) = (percentDecode rest).map (fun bs => c.toNat :: bs) := by
  rw [percentDecode.eq_def]
  simp only [if_neg h1, if_neg h2]

theorem percentDecode_escape (h1 h2 : Char) (a d : Nat) (rest : List Char)
    (ha : hexVal h1 = some a) (hd : hexVal h2 = some d) :
    percentDecode ('%' :: h1 :: h2 :: rest) =
      (percentDecode rest).map (fun bs => (16 * a + d) :: bs) := by
  rw [percentDecode.eq_def]
  simp [ha, hd]

theorem percentDecode_encodeByte (b : Nat) (hb : b < 256) (rest : List Char) :
    percentDecode (encodeByteChars b ++ rest) =
      (percentDecode rest).map (fun bs => b :: bs) := by
  by_cases h32 : b = 32
  · subst h32
    simpa [encodeByteChars] using percentDecode_plus rest
  · by_cases hsafe : isFormSafe b
    · obtain ⟨-, h43, h37⟩ := isFormSafe_facts b hb hsafe
      have htn := toNat_ofNat_of_lt b hb
      have : percentDecode (Char.ofNat b :: rest) =
          (percentDecode rest).map (fun bs => b :: bs) := by
        rw [percentDecode_other _ _ (ofNat_ne_plus b hb h43) (ofNat_ne_percent b hb h37), htn]
      simpa [encodeByteChars, h32, hsafe] using this
    · have hdiv : b / 16 < 16 := by omega
      have hmod : b % 16 < 16 := by omega
      have hb' : 16 * (b / 16) + b % 16 = b := by omega
      have := percentDecode_escape (hexDigitChar (b / 16)) (hexDigitChar (b % 16))
        (b / 16) (b % 16) rest (hexVal_hexDigitChar _ hdiv) (hexVal_hexDigitChar _ hmod)
      rw [hb'] at this
      simpa [encodeByteChars, h32, hsafe] using this

theorem percentDecode_flatMap (bs : List Nat) (h : ∀ b ∈ bs, b < 256) (rest : List Char) :
    percentDecode (bs.flatMap encodeByteChars ++ rest) =
      (percentDecode rest).map (fun l => bs ++ l) := by
  induction bs with
  | nil =>
    cases hr : percentDecode rest <;> simp [hr]
  | cons b tl ih =>
    simp only [List.flatMap_cons, List.append_assoc]
    rw [percentDecode_encodeByte b (h b (by simp)),
      ih (fun x hx => h x (by simp [hx]))]
    cases percentDecode rest <;> simp

theorem utf8Bytes_lt (c : Char) : ∀ b ∈ utf8Bytes c, b < 256 := by
  have h := char_toNat_lt c
  intro b hb
  simp only [utf8Bytes] at hb
  split_ifs at hb <;>
    simp only [List.mem_cons, List.not_mem_nil, or_false] at hb <;> omega

theorem utf8Bytes_length_pos (c : Char) : 1 ≤ (utf8Bytes c).length := by
  simp only [utf8Bytes]
  split_ifs <;> simp

theorem utf8DecodeOne_utf8Bytes (c : Char) (rest : List Nat) :
    utf8DecodeOne (utf8Bytes c ++ rest) = some (c.toNat, rest) := by
  have h := char_toNat_lt c
  by_cases h1 : c.toNat < 128
  · simp [utf8Bytes, utf8DecodeOne, h1]
  · by_cases h2 : c.toNat < 2048
    · have ha : ¬ (192 + c.toNat / 64 < 128) := by omega
      have hb : ¬ (192 + c.toNat / 64 < 192) := by omega
      have hc : 192 + c.toNat / 64 < 224 := by omega
      have hb1 : 128 ≤ 128 + c.toNat % 64 ∧ 128 + c.toNat % 64 < 192 := by omega
      simp only [utf8Bytes, if_neg h1, if_pos h2, List.cons_append, List.nil_append,
        utf8DecodeOne, if_neg ha, if_neg hb, if_pos hc]
      simp only [List.length_cons, List.getD_cons_zero, List.drop_succ_cons, List.drop_zero]
      simp [hb1]
      omega
    · by_cases h3 : c.toNat < 65536
      · have ha : ¬ (224 + c.toNat / 4096 < 128) := by omega
        have hb : ¬ (224 + c.toNat / 4096 < 192) := by omega
        have hc : ¬ (224 + c.toNat / 4096 < 224) := by omega
        have hd : 224 + c.toNat / 4096 < 240 := by omega
        have hb1 : (128 ≤ 128 + c.toNat / 64 % 64 ∧ 128 + c.toNat / 64 % 64 < 192) ∧
            128 ≤ 128 + c.toNat % 64 ∧ 128 + c.toNat % 64 < 192 := by omega
        simp only [utf8Bytes, if_neg h1, if_neg h2, if_pos h3, List.cons_append,
          List.nil_append, utf8DecodeOne, if_neg ha, if_neg hb, if_neg hc, if_pos hd]
        simp only [List.length_cons, List.getD_cons_zero, List.getD_cons_succ,
          List.drop_succ_cons, List.drop_zero]
        simp [hb1]
        omega
      · have ha : ¬ (240 + c.toNat / 262144 < 128) := by omega
        have hb : ¬ (240 + c.toNat / 262144 < 192) := by omega
        have hc : ¬ (240 + c.toNat / 262144 < 224) := by omega
        have hd : ¬ (240 + c.toNat / 262144 < 240) := by omega
        have he : 240 + c.toNat / 262144 < 248 := by omega
        have hb1 : ((128 ≤ 128 + c.toNat / 4096 % 64 ∧ 128 + c.toNat / 4096 % 64 < 192) ∧
            128 ≤ 128 + c.toNat / 64 % 64 ∧ 128 + c.toNat / 64 % 64 < 192) ∧
            128 ≤ 128 + c.toNat % 64 ∧ 128 + c.toNat % 64 < 192 := by omega
        simp only [utf8Bytes, if_neg h1, if_neg h2, if_neg h3, List.cons_append,
          List.nil_append, utf8DecodeOne, if_neg ha, if_neg hb, if_neg hc, if_neg hd,
          if_pos he]
        simp only [List.length_cons, List.getD_cons_zero, List.getD_cons_succ,
          List.drop_succ_cons, List.drop_zero]
        simp [hb1]
        omega

theorem utf8DecodeLoop_flatMap (l : List Char) (fuel : Nat)
    (hf : (l.flatMap utf8Bytes).length ≤ fuel) :
    utf8DecodeLoop fuel (l.flatMap utf8Bytes) = some (l.map Char.toNat) := by
  induction l generalizing fuel with
  | nil => cases fuel <;> simp [utf8DecodeLoop]
  | cons c tl ih =>
    have hpos := utf8Bytes_length_pos c
    obtain ⟨b, bs, hbs⟩ : ∃ b bs, utf8Bytes c = b :: bs := by
      cases hu : utf8Bytes c with
      | nil => rw [hu] at hpos; simp at hpos
      | cons b bs => exact ⟨b, bs, rfl⟩
    simp only [List.flatMap_cons, List.length_append] at hf ⊢
    rw [hbs] at hf ⊢
    simp only [List.cons_append, List.length_cons] at hf ⊢
    cases fuel with
    | zero => omega
    | succ f =>
      have hone := utf8DecodeOne_utf8Bytes c (tl.flatMap utf8Bytes)
      rw [hbs, List.cons_append] at hone
      simp only [utf8DecodeLoop, hone]
      rw [ih f (by rw [hbs] at hpos; simp at hpos; omega)]
      simp

theorem utf8Decode_flatMap (l : List Char) :
    utf8Decode (l.flatMap utf8Bytes) = some (l.map Char.toNat) :=
  utf8DecodeLoop_flatMap l _ le_rfl

theorem percentDecode_nil : percentDecode [] = some [] := by
  rw [percentDecode.eq_def]

theorem percentDecode_formUrlEncode (s : String) :
    percentDecode (formUrlEncode s) = some (s.data.flatMap utf8Bytes) := by
  have h : ∀ b ∈ s.data.flatMap utf8Bytes, b < 256 := by
    intro b hb
    obtain ⟨c, -, hc⟩ := List.exists_of_mem_flatMap hb
    exact utf8Bytes_lt c b hc
  have hmain := percentDecode_flatMap (s.data.flatMap utf8Bytes) h []
  simpa [formUrlEncode, percentDecode_nil] using hmain

theorem decodeComponent_formUrlEncode (s : String) :
    decodeComponent (formUrlEncode s) = some s := by
  have hco : (Char.ofNat ∘ Char.toNat) = id := funext Char.ofNat_toNat
  cases s with
  | mk data =>
    rw [decodeComponent, percentDecode_formUrlEncode]
    simp only [Option.some_bind]
    rw [utf8Decode_flatMap]
    simp [List.map_map, hco]

set_option maxRecDepth 4096 in
theorem encodeByteChars_ne_sep : ∀ b : Nat, b < 256 →
    ∀ c ∈ encodeByteChars b, c ≠ '&' ∧ c ≠ '=' := by
  decide

theorem formUrlEncode_ne_sep (s : String) :
    ∀ c ∈ formUrlEncode s, c ≠ '&' ∧ c ≠ '=' := by
  intro c hc
  obtain ⟨b, hb, hcb⟩ := List.exists_of_mem_flatMap hc
  obtain ⟨ch, -, hbc⟩ := List.exists_of_mem_flatMap hb
  exact encodeByteChars_ne_sep b (utf8Bytes_lt ch b hbc) c hcb

theorem splitOnChar_ne_nil (sep : Char) (l : List Char) : splitOnChar sep l ≠ [] := by
  cases l with
  | nil => simp [splitOnChar]
  | cons c rest =>
    simp only [splitOnChar]
    rcases hsp : splitOnChar sep rest with _ | ⟨g, gs⟩
    · simp [hsp]
    · simp only [hsp]
      split <;> simp

theorem splitOnChar_not_mem {sep : Char} {l : List Char} (h : sep ∉ l) :
    splitOnChar sep l = [l] := by
  induction l with
  | nil => rfl
  | cons c rest ih =>
    have hc : ¬ (c = sep) := by
      rintro rfl
      exact h (List.mem_cons_self c rest)
    have hr : sep ∉ rest := fun hm => h (List.mem_cons_of_mem _ hm)
    simp only [splitOnChar, ih hr]
    simp [hc]

theorem splitOnChar_append {sep : Char} {xs : List Char} (h : sep ∉ xs) (ys : List Char) :
    splitOnChar sep (xs ++ sep :: ys) = xs :: splitOnChar sep ys := by
  induction xs with
  | nil =>
    simp only [List.nil_append, splitOnChar]
    cases hy : splitOnChar sep ys with
    | nil => exact absurd hy (splitOnChar_ne_nil sep ys)
    | cons g gs => simp
  | cons c rest ih =>
    have hc : ¬ (c = sep) := by
      rintro rfl
      exact h (List.mem_cons_self c rest)
    have hr : sep ∉ rest := fun hm => h (List.mem_cons_of_mem _ hm)
    simp only [List.cons_append, splitOnChar, List.append_eq]
    rw [ih hr]
    simp [hc]

theorem parseQueryPair_encode (k v : String) :
    parseQueryPair (formUrlEncode k ++ '=' :: formUrlEncode v) = some (k, v) := by
  have hk : '=' ∉ formUrlEncode k := fun hm => (formUrlEncode_ne_sep k _ hm).2 rfl
  have hv : '=' ∉ formUrlEncode v := fun hm => (formUrlEncode_ne_sep v _ hm).2 rfl
  rw [parseQueryPair, splitOnChar_append hk, splitOnChar_not_mem hv]
  simp [decodeComponent_formUrlEncode]

theorem component_no_amp (k v : String) :
    '&' ∉ (formUrlEncode k ++ '=' :: formUrlEncode v) := by
  intro hm
  rcases List.mem_append.1 hm with hm | hm
  · exact (formUrlEncode_ne_sep k _ hm).1 rfl
  · rcases List.mem_cons.1 hm with hm | hm
    · exact absurd hm (by decide)
    · exact (formUrlEncode_ne_sep v _ hm).1 rfl

theorem parseQuery_serialize (ps : List (String × String)) (h : ps ≠ []) :
    parseQueryChars (serializePairsChars ps) = some ps := by
  induction ps with
  | nil => exact absurd rfl h
  | cons p tl ih =>
    cases tl with
    | nil =>
      simp only [serializePairsChars, List.map_cons, List.map_nil, intercalateChar]
      rw [parseQueryChars, splitOnChar_not_mem (component_no_amp p.1 p.2)]
      simp [mapMPairs, parseQueryPair_encode]
    | cons q tl2 =>
      simp only [serializePairsChars, List.map_cons, intercalateChar]
      rw [parseQueryChars, splitOnChar_append (component_no_amp p.1 p.2)]
      have ihh := ih (by simp)
      simp only [serializePairsChars, List.map_cons, intercalateChar, parseQueryChars] at ihh
      simp [mapMPairs, parseQueryPair_encode, ihh]

theorem string_isEmpty_false {s : String} (h : s ≠ "") : s.isEmpty = false := by
  cases hse : s.isEmpty with
  | false => rfl
  | true => exact absurd ((String.isEmpty_iff s).1 hse) h

theorem new_ok {nm ow : String} (hn : nm ≠ "") (ho : ow ≠ "") :
    Issue.new nm ow = .ok ⟨nm, ow, []⟩ := by
  simp [Issue.new, string_isEmpty_false hn, string_isEmpty_false ho]

theorem setField_eq (f : IssueField) (v : String) (i : Issue) :
    setField f v i = ⟨i.repository_name, i.repository_owner, i.params ++ [(f.key, v)]⟩ := by
  cases f <;> rfl

theorem applySetters_eq (cs : List (IssueField × String)) (i : Issue) :
    applySetters i cs =
      ⟨i.repository_name, i.repository_owner, i.params ++ cs.map callPair⟩ := by
  induction cs generalizing i with
  | nil =>
    cases i
    simp [applySetters]
  | cons c tl ih =>
    have h1 : applySetters i (c :: tl) = applySetters (setField c.1 c.2 i) tl := rfl
    rw [h1, ih, setField_eq]
    simp [callPair]

theorem url_eq_of_params_nil (i : Issue) (h : i.params = []) :
    i.url = .ok ("https://github.com/" ++ i.repository_owner ++ "/" ++
      i.repository_name ++ "/issues/new") := by
  simp [Issue.url, Url.parse_with_params, h]

theorem url_eq_of_params_ne (i : Issue) (h : i.params ≠ []) :
    i.url = .ok ("https://github.com/" ++ i.repository_owner ++ "/" ++
      i.repository_name ++ "/issues/new" ++ "?" ++
      String.mk (serializePairsChars i.params)) := by
  have hne : i.params.isEmpty = false := by
    cases hp : i.params <;> simp_all
  simp [Issue.url, Url.parse_with_params, hne]

/-- C1: for every builder constructed with non-empty name and owner and any
sequence of setter calls, `url()` succeeds and returns
`https://github.com/<owner>/<name>/issues/new` followed by the accumulated
(key, value) pairs serialized as query parameters in exactly the order the
setters were invoked, each value form-urlencoded (space as `+`, reserved
characters such as `,` and `:` percent-escaped, UTF-8 sequences escaped
byte by byte). -/
theorem C1_url_serializes_pairs_in_order (nm ow : String)
    (cs : List (IssueField × String)) (hn : nm ≠ "") (ho : ow ≠ "") :
    ∃ i0, Issue.new nm ow = .ok i0 ∧
      (applySetters i0 cs).url =
        .ok ("https://github.com/" ++ ow ++ "/" ++ nm ++ "/issues/new" ++
          (if cs.isEmpty then ""
           else "?" ++ String.mk (serializePairsChars (cs.map callPair)))) := by
  refine ⟨⟨nm, ow, []⟩, new_ok hn ho, ?_⟩
  rcases cs with _ | ⟨c, tl⟩
  · rw [applySetters_eq, url_eq_of_params_nil _ (by simp)]
    simp [String.append_empty]
  · rw [applySetters_eq, url_eq_of_params_ne _ (by simp)]
    simp only [List.isEmpty_cons, Bool.false_eq_true, if_false, List.nil_append,
      List.map_cons, Except.ok.injEq]
    apply String.ext
    simp

theorem C1_witness :
    ∃ i0, Issue.new "r" "o" = .ok i0 ∧
      (applySetters i0 [(IssueField.title, "a b")]).url =
        .ok ("https://github.com/" ++ "o" ++ "/" ++ "r" ++ "/issues/new" ++
          (if ([(IssueField.title, "a b")] : List (IssueField × String)).isEmpty then ""
           else "?" ++
             String.mk (serializePairsChars ([(IssueField.title, "a b")].map callPair)))) :=
  C1_url_serializes_pairs_in_order "r" "o" [(IssueField.title, "a b")]
    (by decide) (by decide)

/-- C2: for every builder constructed with non-empty name and owner on
which no setter was called, `url()` returns exactly
`https://github.com/<owner>/<name>/issues/new`, with no trailing `?` and no
query string. -/
theorem C2_url_without_setters (nm ow : String) (hn : nm ≠ "") (ho : ow ≠ "") :
    ∃ i0, Issue.new nm ow = .ok i0 ∧
      i0.url = .ok ("https://github.com/" ++ ow ++ "/" ++ nm ++ "/issues/new") := by
  refine ⟨⟨nm, ow, []⟩, new_ok hn ho, ?_⟩
  rw [url_eq_of_params_nil _ rfl]

theorem C2_witness :
    ∃ i0, Issue.new "github-issue-url" "EstebanBorai" = .ok i0 ∧
      i0.url = .ok ("https://github.com/" ++ "EstebanBorai" ++ "/" ++
        "github-issue-url" ++ "/issues/new") :=
  C2_url_without_setters "github-issue-url" "EstebanBorai" (by decide) (by decide)

/-- C3: `Issue::new` succeeds exactly when both arguments are non-empty;
an empty name yields `EmptyRepositoryName` regardless of the owner, and a
non-empty name with an empty owner yields `EmptyRepositoryOwner` (the name
check precedes the owner check). -/
theorem C3_new_validation (nm ow : String) :
    ((∃ i, Issue.new nm ow = .ok i) ↔ nm ≠ "" ∧ ow ≠ "") ∧
    (nm = "" → Issue.new nm ow = .error .EmptyRepositoryName) ∧
    (nm ≠ "" → ow = "" → Issue.new nm ow = .error .EmptyRepositoryOwner) := by
  by_cases hn : nm = ""
  · subst hn
    have h1 : ("" : String).isEmpty = true := rfl
    simp [Issue.new, h1]
  · have h1 : nm.isEmpty = false := string_isEmpty_false hn
    by_cases ho : ow = ""
    · subst ho
      have h2 : ("" : String).isEmpty = true := rfl
      simp [Issue.new, h1, h2, hn]
    · have h2 : ow.isEmpty = false := string_isEmpty_false ho
      simp [Issue.new, h1, h2, hn, ho]

theorem C3_witness :
    Issue.new "" "EstebanBorai" = .error .EmptyRepositoryName ∧
    Issue.new "github-issue-url" "" = .error .EmptyRepositoryOwner :=
  ⟨(C3_new_validation "" "EstebanBorai").2.1 rfl,
   (C3_new_validation "github-issue-url" "").2.2 (by decide) rfl⟩

set_option maxRecDepth 100000

/-- C4: the concrete documented scenario — construct for
`EstebanBorai/github-issue-url`, set title, body, template, labels,
assignee, milestone and projects — produces exactly the expected URL. -/
theorem C4_concrete_scenario :
    ∃ i0, Issue.new "github-issue-url" "EstebanBorai" = .ok i0 ∧
      (((((((i0.title "Null: The Billion Dollar Mistake").body
        "Null is a flag. It represents different situations depending on the context in which it is used and invoked. This yields the most serious error in software development: Coupling a hidden decision in the contract between an object and who uses it.").template
        "bug_report.md").labels "bug,production,high-severity").assignee
        "EstebanBorai").milestone "1").projects "1").url =
        .ok "https://github.com/EstebanBorai/github-issue-url/issues/new?title=Null%3A+The+Billion+Dollar+Mistake&body=Null+is+a+flag.+It+represents+different+situations+depending+on+the+context+in+which+it+is+used+and+invoked.+This+yields+the+most+serious+error+in+software+development%3A+Coupling+a+hidden+decision+in+the+contract+between+an+object+and+who+uses+it.&template=bug_report.md&labels=bug%2Cproduction%2Chigh-severity&assignee=EstebanBorai&milestone=1&projects=1" :=
  ⟨⟨"github-issue-url", "EstebanBorai", []⟩, rfl, rfl⟩

set_option maxRecDepth 512

/-- C5: whenever `url()` succeeds on a builder reached by setter calls,
parsing the produced URL's query string back into pairs and
percent-decoding reproduces exactly the accumulated (key, value) sequence,
in order. -/
theorem C5_query_roundtrip (nm ow : String) (cs : List (IssueField × String))
    (hn : nm ≠ "") (ho : ow ≠ "") (hcs : cs ≠ []) :
    ∃ i0 q, Issue.new nm ow = .ok i0 ∧
      (applySetters i0 cs).url =
        .ok ("https://github.com/" ++ ow ++ "/" ++ nm ++ "/issues/new" ++ "?" ++
          String.mk q) ∧
      parseQueryChars q = some (cs.map callPair) := by
  have hmap : cs.map callPair ≠ [] := by
    cases cs with
    | nil => exact absurd rfl hcs
    | cons a l => simp
  refine ⟨⟨nm, ow, []⟩, serializePairsChars (cs.map callPair), new_ok hn ho, ?_,
    parseQuery_serialize _ hmap⟩
  rw [applySetters_eq, url_eq_of_params_ne _ (by simp [hmap])]
  simp

theorem C5_witness :
    ∃ i0 q, Issue.new "r" "o" = .ok i0 ∧
      (applySetters i0 [(IssueField.title, "a b")]).url =
        .ok ("https://github.com/" ++ "o" ++ "/" ++ "r" ++ "/issues/new" ++ "?" ++
          String.mk q) ∧
      parseQueryChars q = some ([(IssueField.title, "a b")].map callPair) :=
  C5_query_roundtrip "r" "o" [(IssueField.title, "a b")] (by decide) (by decide)
    (by decide)

/-- C6: calling the same field's setter twice appends two separate entries
for that key in call order rather than overwriting; the pair sequence is
ordered and duplicate-permitting, and the final URL carries both entries. -/
theorem C6_duplicate_setter_appends (i : Issue) (f : IssueField) (A B : String) :
    (setField f B (setField f A i)).params = i.params ++ [(f.key, A), (f.key, B)] ∧
    (i.params = [] →
      (setField f B (setField f A i)).url =
        .ok ("https://github.com/" ++ i.repository_owner ++ "/" ++
          i.repository_name ++ "/issues/new" ++ "?" ++
          String.mk (serializePairsChars [(f.key, A), (f.key, B)]))) := by
  rw [setField_eq, setField_eq]
  constructor
  · simp
  · intro hp
    rw [url_eq_of_params_ne _ (by simp)]
    simp [hp]

theorem C6_witness :
    (setField .title "B" (setField .title "A" ⟨"r", "o", []⟩)).params =
      ([] : List (String × String)) ++ [(IssueField.key .title, "A"), (IssueField.key .title, "B")] ∧
    (setField .title "B" (setField .title "A" (⟨"r", "o", []⟩ : Issue))).url =
      .ok ("https://github.com/" ++ "o" ++ "/" ++ "r" ++ "/issues/new" ++ "?" ++
        String.mk (serializePairsChars
          [(IssueField.key .title, "A"), (IssueField.key .title, "B")])) :=
  ⟨(C6_duplicate_setter_appends ⟨"r", "o", []⟩ .title "A" "B").1,
   (C6_duplicate_setter_appends ⟨"r", "o", []⟩ .title "A" "B").2 rfl⟩

/-- C7: `url()` is idempotent and side-effect-free: two successive calls
return identical results, and a call leaves owner, name and the parameter
sequence of the borrowed builder unchanged. -/
theorem C7_url_idempotent (i : Issue) :
    i.urlCall.1 = i.urlCall.2.urlCall.1 ∧ i.urlCall.2 = i ∧
    i.urlCall.2.repository_name = i.repository_name ∧
    i.urlCall.2.repository_owner = i.repository_owner ∧
    i.urlCall.2.params = i.params :=
  ⟨rfl, rfl, rfl, rfl, rfl⟩

theorem C7_witness :
    (Issue.mk "r" "o" [("title", "x")]).urlCall.1 =
      (Issue.mk "r" "o" [("title", "x")]).urlCall.2.urlCall.1 ∧
    (Issue.mk "r" "o" [("title", "x")]).urlCall.2 = Issue.mk "r" "o" [("title", "x")] ∧
    (Issue.mk "r" "o" [("title", "x")]).urlCall.2.repository_name =
      (Issue.mk "r" "o" [("title", "x")]).repository_name ∧
    (Issue.mk "r" "o" [("title", "x")]).urlCall.2.repository_owner =
      (Issue.mk "r" "o" [("title", "x")]).repository_owner ∧
    (Issue.mk "r" "o" [("title", "x")]).urlCall.2.params =
      (Issue.mk "r" "o" [("title", "x")]).params :=
  C7_url_idempotent (Issue.mk "r" "o" [("title", "x")])

/-- C8: every operation is total, and all failures are reported as
returned `Error` values: `new` returns ok or one of the two empty-field
errors, each setter returns the updated builder, and `url()` always
returns a result. -/
theorem C8_operations_total (nm ow v : String) (i : Issue) (f : IssueField) :
    (Issue.new nm ow = .error .EmptyRepositoryName ∨
      Issue.new nm ow = .error .EmptyRepositoryOwner ∨
      ∃ j, Issue.new nm ow = .ok j) ∧
    (∃ j : Issue, setField f v i = j) ∧
    (∃ s : String, i.url = .ok s) := by
  refine ⟨?_, ⟨_, rfl⟩, ?_⟩
  · unfold Issue.new
    split_ifs <;> simp
  · cases hp : i.params with
    | nil => exact ⟨_, url_eq_of_params_nil i hp⟩
    | cons a l => exact ⟨_, url_eq_of_params_ne i (by simp [hp])⟩

theorem C8_witness :
    (Issue.new "r" "" = .error .EmptyRepositoryName ∨
      Issue.new "r" "" = .error .EmptyRepositoryOwner ∨
      ∃ j, Issue.new "r" "" = .ok j) ∧
    (∃ j : Issue, setField .body "𝄞 ü" ⟨"r", "o", []⟩ = j) ∧
    (∃ s : String, (Issue.mk "r" "o" []).url = .ok s) :=
  C8_operations_total "r" "" "𝄞 ü" ⟨"r", "o", []⟩ .body

/-- C9: the user-visible messages of the two construction errors are
exactly as documented, and the two concrete invalid constructions produce
exactly those errors. -/
theorem C9_error_messages :
    Error.EmptyRepositoryName.message = "Repository name is not defined" ∧
    Error.EmptyRepositoryOwner.message = "Repository owner name is not defined" ∧
    Issue.new "" "EstebanBorai" = .error .EmptyRepositoryName ∧
    Issue.new "github-issue-url" "" = .error .EmptyRepositoryOwner :=
  ⟨rfl, rfl, rfl, rfl⟩

/-- C10: every setter appends exactly one pair — its literal field name
with the given value — at the end of the sequence, leaving repository
name, owner and all earlier pairs unchanged; a freshly constructed builder
has an empty pair sequence. -/
theorem C10_setter_append_frame (i : Issue) (f : IssueField) (v nm ow : String) :
    (setField f v i).params = i.params ++ [(f.key, v)] ∧
    (setField f v i).repository_name = i.repository_name ∧
    (setField f v i).repository_owner = i.repository_owner ∧
    (nm ≠ "" → ow ≠ "" → Issue.new nm ow = .ok ⟨nm, ow, []⟩) := by
  rw [setField_eq]
  exact ⟨rfl, rfl, rfl, fun hn ho => new_ok hn ho⟩

theorem C10_witness :
    (setField .labels "a,b" ⟨"r", "o", [("title", "t")]⟩).params =
      [("title", "t")] ++ [(IssueField.key .labels, "a,b")] ∧
    (setField .labels "a,b" ⟨"r", "o", [("title", "t")]⟩).repository_name =
      (Issue.mk "r" "o" [("title", "t")]).repository_name ∧
    (setField .labels "a,b" ⟨"r", "o", [("title", "t")]⟩).repository_owner =
      (Issue.mk "r" "o" [("title", "t")]).repository_owner ∧
    Issue.new "r" "o" = .ok ⟨"r", "o", []⟩ :=
  ⟨(C10_setter_append_frame ⟨"r", "o", [("title", "t")]⟩ .labels "a,b" "r" "o").1,
   (C10_setter_append_frame ⟨"r", "o", [("title", "t")]⟩ .labels "a,b" "r" "o").2.1,
   (C10_setter_append_frame ⟨"r", "o", [("title", "t")]⟩ .labels "a,b" "r" "o").2.2.1,
   (C10_setter_append_frame ⟨"r", "o", [("title", "t")]⟩ .labels "a,b" "r" "o").2.2.2
     (by decide) (by decide)⟩
